import Mathlib

/-!
Verification of the somnisoft grep core (src/grep.c) against its
natural-language specification.  C strings are embedded as `List Char`
(NUL-free payload of a NUL-terminated buffer); `size_t` arithmetic is
embedded as `Nat` reduced modulo `2 ^ 64`; fallible or external
collaborators (realloc, regcomp, regexec) are embedded as explicit
parameters.
-/

namespace Grep

/-- Number of values of the 64-bit `size_t` used by the build target. -/
def SIZE_BOUND : Nat := 2 ^ 64

/-- `SIZE_MAX` for a 64-bit `size_t`. -/
def SIZE_MAX : Nat := SIZE_BOUND - 1

/-- Embeds `si_add_size_t` (grep.c): wrapping addition together with the
wrap flag the C code computes via `*result < a`. -/
def si_add_size_t (a b : Nat) : Nat × Bool :=
  let result := (a + b) % SIZE_BOUND
  (result, decide (result < a))

/-- Embeds `si_mul_size_t` (grep.c): wrapping multiplication together with
the wrap flag the C code computes via `b != 0 && a > SIZE_MAX / b`. -/
def si_mul_size_t (a b : Nat) : Nat × Bool :=
  let result := (a * b) % SIZE_BOUND
  (result, decide (b ≠ 0) && decide (SIZE_MAX / b < a))

/-- `sizeof(struct grep_pattern)` on the 64-bit glibc build target
(8-byte pointer + 64-byte `regex_t` + `bool` + 7 padding bytes). -/
def sizeof_grep_pattern : Nat := 80

/-- Embeds C `tolower` restricted to ASCII (the bytes this program
feeds it): folds `A`..`Z` to lower case and leaves everything else. -/
def tolower (c : Char) : Char :=
  if 'A' ≤ c ∧ c ≤ 'Z' then Char.ofNat (c.toNat + 32) else c

/-- `begins_with s p` holds when `p` is an initial run of `s`
(character-wise equality).  Used to model libc `strstr` and to state
substring occurrence. -/
def begins_with : List Char → List Char → Bool
  | _, [] => true
  | [], _ :: _ => false
  | c :: r, d :: q => c == d && begins_with r q

/-- All suffixes of a list, longest first (including the empty one). -/
def suffixes : List Char → List (List Char)
  | [] => [[]]
  | c :: r => (c :: r) :: suffixes r

/-- Specification-side predicate: `pat` occurs as a contiguous substring
of `hay` under ASCII case folding. -/
def casefold_occurs (hay pat : List Char) : Bool :=
  (suffixes (hay.map tolower)).any (fun s => begins_with s (pat.map tolower))

/-- Models libc `strstr` by its C-standard contract: pointer to the first
occurrence of `s2` in `s1` (an empty `s2` yields `s1`), `none` when `s2`
does not occur. -/
def strstr : List Char → List Char → Option (List Char)
  | [], s2 => if begins_with [] s2 then some [] else none
  | c :: r1, s2 =>
      if begins_with (c :: r1) s2 then some (c :: r1) else strstr r1 s2

/-- Embeds the inner loop of `grep_strcasestr` (grep.c): starting from the
current haystack character `c`, consume leading needle characters that are
case-fold-equal to `c`.  Returns `none` when the needle ran out (the C
code then returns the current haystack pointer), otherwise the remaining
needle at the first mismatch (the C code then breaks without resetting
the needle pointer). -/
def grep_strcasestr_inner (c : Char) : List Char → Option (List Char)
  | [] => none
  | d :: q =>
      if tolower c == tolower d then grep_strcasestr_inner c q
      else some (d :: q)

/-- Embeds the outer `while(*s1)` loop of `grep_strcasestr` (grep.c). -/
def grep_strcasestr_loop : List Char → List Char → Option (List Char)
  | [], _ => none
  | c :: r1, s2 =>
      match grep_strcasestr_inner c s2 with
      | none => some (c :: r1)
      | some s2rest => grep_strcasestr_loop r1 s2rest

/-- Embeds `grep_strcasestr` (grep.c): the `*s2 == '\0'` fast path
followed by the scanning loop. -/
def grep_strcasestr (s1 s2 : List Char) : Option (List Char) :=
  match s2 with
  | [] => some s1
  | _ :: _ => grep_strcasestr_loop s1 s2

/-- Exit status `GREP_EXIT_MATCH` (grep.c). -/
def GREP_EXIT_MATCH : Nat := 0

/-- Exit status `GREP_EXIT_NOMATCH` (grep.c). -/
def GREP_EXIT_NOMATCH : Nat := 1

/-- Exit status `GREP_EXIT_FAILURE` (grep.c). -/
def GREP_EXIT_FAILURE : Nat := 2

/-- Embeds `struct grep_pattern` (grep.c): the pattern text and the
`compiled` flag.  The opaque `regex_t` handle itself is represented by
the text it was compiled from, matching being routed through an
external-regexec parameter where needed. -/
structure grep_pattern where
  pattern : List Char
  compiled : Bool
deriving DecidableEq, Repr

/-- Embeds `struct grep_ctx` (grep.c).  `num_patterns` is represented by
`pattern_list.length` (the C code keeps them equal). -/
structure grep_ctx where
  status_code : Nat
  num_files : Nat
  line_count : Bool
  extended_reg_expr : Bool
  fixed_string : Bool
  case_insensitive : Bool
  write_file_names : Bool
  line_number : Bool
  quiet : Bool
  ignore_file_error : Bool
  invert_match : Bool
  full_string_match : Bool
  pattern_list : List grep_pattern
  fn_match : grep_pattern → List Char → Bool

/-- Embeds `grep_warn` (grep.c): sets the process status to
`GREP_EXIT_FAILURE` (the diagnostic text on stderr is not modelled). -/
def grep_warn (ctx : grep_ctx) : grep_ctx :=
  { ctx with status_code := GREP_EXIT_FAILURE }

/-- Severity order of the specification (NoMatchYet < Matched < Errored)
mapped onto the exit-status encoding of grep.c. -/
def status_sev (s : Nat) : Nat :=
  if s = GREP_EXIT_FAILURE then 2 else if s = GREP_EXIT_MATCH then 1 else 0

/-- Embeds `grep_match_fixed_strcmp` (grep.c): `strcmp(line, pattern) == 0`,
i.e. plain string equality. -/
def grep_match_fixed_strcmp (p : grep_pattern) (line : List Char) : Bool :=
  line == p.pattern

/-- Embeds `grep_match_fixed_strcasecmp` (grep.c): `strcasecmp == 0`,
i.e. equality after character-wise ASCII case folding. -/
def grep_match_fixed_strcasecmp (p : grep_pattern) (line : List Char) : Bool :=
  line.map tolower == p.pattern.map tolower

/-- Embeds `grep_match_fixed_strstr` (grep.c): libc `strstr` found the
pattern in the line. -/
def grep_match_fixed_strstr (p : grep_pattern) (line : List Char) : Bool :=
  (strstr line p.pattern).isSome

/-- Embeds `grep_match_fixed_strcasestr` (grep.c): `grep_strcasestr`
returned non-NULL. -/
def grep_match_fixed_strcasestr (p : grep_pattern) (line : List Char) : Bool :=
  (grep_strcasestr line p.pattern).isSome

/-- Embeds `grep_match_regex` (grep.c): delegates to the external
`regexec`, supplied here as the parameter `rexec` (pattern text, line). -/
def grep_match_regex (rexec : List Char → List Char → Bool)
    (p : grep_pattern) (line : List Char) : Bool :=
  rexec p.pattern line

/-- Embeds `grep_set_fn_match` (grep.c): selects the match strategy from
`fixed_string`, `case_insensitive` and `full_string_match`. -/
def grep_set_fn_match (rexec : List Char → List Char → Bool)
    (ctx : grep_ctx) : grep_ctx :=
  if ctx.fixed_string then
    if ctx.case_insensitive then
      if ctx.full_string_match then
        { ctx with fn_match := grep_match_fixed_strcasecmp }
      else
        { ctx with fn_match := grep_match_fixed_strcasestr }
    else
      if ctx.full_string_match then
        { ctx with fn_match := grep_match_fixed_strcmp }
      else
        { ctx with fn_match := grep_match_fixed_strstr }
  else
    { ctx with fn_match := grep_match_regex rexec }

/-- Embeds `grep_pattern_append` (grep.c).  The overflow-checked size
computation `(num_patterns + 1) * sizeof(struct grep_pattern)` is taken
from the source; `realloc` success is supplied as the parameter
`allocOk`.  On either failure the pattern string is freed (hence not
stored) and `grep_warn` fires; on success the pattern is stored
uncompiled at the end of the list. -/
def grep_pattern_append (ctx : grep_ctx) (pattern_str : List Char)
    (allocOk : Bool) : grep_ctx :=
  let add := si_add_size_t ctx.pattern_list.length 1
  let mul := si_mul_size_t add.1 sizeof_grep_pattern
  if add.2 || mul.2 then grep_warn ctx
  else if allocOk then
    { ctx with pattern_list :=
        ctx.pattern_list ++ [{ pattern := pattern_str, compiled := false }] }
  else grep_warn ctx

/-- Combined wrap condition of the two `si_*` checks in
`grep_pattern_append`, as a function of the current pattern count. -/
def append_size_wrap (n : Nat) : Bool :=
  (si_add_size_t n 1).2 || (si_mul_size_t (si_add_size_t n 1).1 sizeof_grep_pattern).2

/-- Extract one `strtok` token body: the characters up to the first
newline, together with the rest of the buffer after that newline. -/
def token_take : List Char → List Char × List Char
  | [] => ([], [])
  | c :: r =>
      if c == '\n' then ([], r)
      else
        let tr := token_take r
        (c :: tr.1, tr.2)

theorem token_take_rest_le (r : List Char) : (token_take r).2.length ≤ r.length := by
  induction r with
  | nil => simp [token_take]
  | cons c r ih =>
      by_cases h : c == '\n'
      · simp [token_take, h]
      · simp [token_take, h]
        omega

/-- Models the iterated `strtok(s, "\n")` calls of `grep_pattern_string`
by their C-standard contract: skip leading delimiters, return the maximal
newline-free run, continue after the consumed delimiter; the token
sequence ends when only delimiters (or nothing) remain. -/
def strtok_all : List Char → List (List Char)
  | [] => []
  | c :: r =>
      if c == '\n' then strtok_all r
      else (c :: (token_take r).1) :: strtok_all (token_take r).2
termination_by s => s.length
decreasing_by
  all_goals simp
  all_goals exact Nat.lt_succ_of_le (token_take_rest_le r)

/-- Specification-side split of a string at every newline, keeping empty
segments ("maximal newline-free segments" are its non-empty members). -/
def split_newline : List Char → List (List Char)
  | [] => [[]]
  | c :: r =>
      if c == '\n' then [] :: split_newline r
      else
        match split_newline r with
        | [] => [[c]]
        | t :: ts => (c :: t) :: ts

/-- Embeds `grep_pattern_string` (grep.c): an empty source appends one
empty pattern (via `strdup("")`); otherwise each `strtok` token is
duplicated and appended.  Allocation is modelled as succeeding. -/
def grep_pattern_string (ctx : grep_ctx) (pattern_str : List Char) : grep_ctx :=
  if pattern_str == [] then grep_pattern_append ctx [] true
  else (strtok_all pattern_str).foldl (fun c t => grep_pattern_append c t true) ctx

/-- Models POSIX `getline` iterated over a whole file content: each chunk
runs up to and including a newline; a final chunk without a trailing
newline is returned as-is at end of file. -/
def getline_chunks : List Char → List (List Char)
  | [] => []
  | c :: r =>
      if c == '\n' then [c] :: getline_chunks r
      else
        match getline_chunks r with
        | [] => [[c]]
        | t :: ts => (c :: t) :: ts

/-- Embeds the read loop of `grep_pattern_file` (grep.c) over the content
of a successfully opened, error-free file: for every `getline` chunk the
code overwrites the character at index `read - 1` with NUL (dropping the
chunk's last character) and appends the result.  Allocation is modelled
as succeeding. -/
def grep_pattern_file (ctx : grep_ctx) (content : List Char) : grep_ctx :=
  (getline_chunks content).foldl
    (fun c raw => grep_pattern_append c raw.dropLast true) ctx

/-- Text produced by the full-line rewrite of `grep_pattern_add_bol_eol`:
`"^(" + original + ")$"`. -/
def bol_eol_text (q : List Char) : List Char :=
  '^' :: '(' :: (q ++ [')', '$'])

/-- Embeds `grep_pattern_add_bol_eol` (grep.c) as a transformer of the
process status and one pattern: the allocation size `strlen + 5` is
overflow-checked; on wrap `grep_warn` fires (status becomes
`GREP_EXIT_FAILURE`) and the pattern is left unchanged, otherwise the
pattern text is rewritten to `"^(" + original + ")$"`.  `malloc` success
is modelled as succeeding. -/
def grep_pattern_add_bol_eol (status : Nat) (p : grep_pattern) :
    Nat × grep_pattern :=
  if (si_add_size_t p.pattern.length 5).2 then (GREP_EXIT_FAILURE, p)
  else (status, { p with pattern := bol_eol_text p.pattern })

/-- Embeds the loop body of `grep_compile_pattern_list` (grep.c) over the
pattern list, threading the process status: optional full-line rewrite,
then `regcomp` (supplied as the success predicate `rc` over the pattern
text; the fixed `cflags` of the run are absorbed into `rc`); success sets
`compiled`, failure fires `grep_warn` and moves on to the next pattern. -/
def grep_compile_step (full : Bool) (rc : List Char → Bool)
    (status : Nat) (p : grep_pattern) : Nat × grep_pattern :=
  let sp1 := if full then grep_pattern_add_bol_eol status p else (status, p)
  if rc sp1.2.pattern then (sp1.1, { sp1.2 with compiled := true })
  else (GREP_EXIT_FAILURE, sp1.2)

def grep_compile_loop (full : Bool) (rc : List Char → Bool) :
    Nat → List grep_pattern → Nat × List grep_pattern
  | status, [] => (status, [])
  | status, p :: ps =>
      ((grep_compile_loop full rc (grep_compile_step full rc status p).1 ps).1,
        (grep_compile_step full rc status p).2 ::
          (grep_compile_loop full rc (grep_compile_step full rc status p).1 ps).2)

/-- Embeds `grep_compile_pattern_list` (grep.c). -/
def grep_compile_pattern_list (ctx : grep_ctx) (rc : List Char → Bool) :
    grep_ctx :=
  let r := grep_compile_loop ctx.full_string_match rc ctx.status_code ctx.pattern_list
  { ctx with status_code := r.1, pattern_list := r.2 }

/-- Embeds `grep_match_output_line` (grep.c): fold the selected match
function over the pattern list (no short-circuit in the source), then
apply `invert_match`. -/
def grep_match_output_line (ctx : grep_ctx) (line : List Char) : Bool :=
  let matched :=
    ctx.pattern_list.foldl (fun m p => if ctx.fn_match p line then true else m) false
  if ctx.invert_match then !matched else matched

/-- Output events written to stdout by the scanning loop. -/
inductive out_event where
  | path_name : List Char → out_event
  | path_colon : List Char → out_event
  | line_num : Nat → out_event
  | line_text : List Char → out_event
  | count : Nat → out_event
deriving DecidableEq, Repr

/-- Embeds the status update at a matched line in `grep_match_output_fp`
(grep.c): escalate to `GREP_EXIT_MATCH` unless already at
`GREP_EXIT_FAILURE`. -/
def fp_match_update (ctx : grep_ctx) : grep_ctx :=
  if ctx.status_code ≠ GREP_EXIT_FAILURE then
    { ctx with status_code := GREP_EXIT_MATCH }
  else ctx

/-- Embeds the per-matched-line stdout writes of the non-`-l` branch of
`grep_match_output_fp` (grep.c): suppressed under `-q` or `-c`, otherwise
optional `path:` (multi-file) and `lineno:` followed by the line. -/
def fp_line_output (ctx : grep_ctx) (path line : List Char) (line_i : Nat) :
    List out_event :=
  if ctx.quiet = false ∧ ctx.line_count = false then
    (if 1 < ctx.num_files then [out_event.path_colon path] else []) ++
    (if ctx.line_number then [out_event.line_num line_i] else []) ++
    [out_event.line_text line]
  else []

/-- Embeds the `getline` loop of `grep_match_output_fp` (grep.c) over the
raw chunks of an error-free stream; each chunk has the character at index
`read - 1` overwritten with NUL (`List.dropLast`) before evaluation.
Writes are modelled as succeeding.  Returns the updated context, the
final `match_i`, the emitted events and the number of chunks read from
the stream (the `-l` branch `break`s, so later chunks are never read). -/
def grep_match_output_fp_loop (ctx : grep_ctx) (path : List Char) :
    List (List Char) → Nat → Nat → grep_ctx × Nat × List out_event × Nat
  | [], _, match_i => (ctx, match_i, [], 0)
  | raw :: rest, line_i, match_i =>
      if grep_match_output_line ctx raw.dropLast then
        if ctx.write_file_names then
          (fp_match_update ctx, match_i + 1, [out_event.path_name path], 1)
        else
          match grep_match_output_fp_loop (fp_match_update ctx) path rest
            (line_i + 1) (match_i + 1) with
          | (c, m, outs, k) =>
              (c, m, fp_line_output ctx path raw.dropLast line_i ++ outs, k + 1)
      else
        match grep_match_output_fp_loop ctx path rest (line_i + 1) match_i with
        | (c, m, outs, k) => (c, m, outs, k + 1)

/-- Embeds `grep_match_output_fp` (grep.c): the scanning loop followed by
the deferred `-c` count line.  Returns the updated context, the emitted
events and the number of chunks read. -/
def grep_match_output_fp (ctx : grep_ctx) (path : List Char)
    (chunks : List (List Char)) : grep_ctx × List out_event × Nat :=
  if (grep_match_output_fp_loop ctx path chunks 1 0).1.line_count then
    ((grep_match_output_fp_loop ctx path chunks 1 0).1,
     (grep_match_output_fp_loop ctx path chunks 1 0).2.2.1 ++
       (if 1 < (grep_match_output_fp_loop ctx path chunks 1 0).1.num_files then
          [out_event.path_colon path]
        else []) ++
       [out_event.count (grep_match_output_fp_loop ctx path chunks 1 0).2.1],
     (grep_match_output_fp_loop ctx path chunks 1 0).2.2.2)
  else
    ((grep_match_output_fp_loop ctx path chunks 1 0).1,
     (grep_match_output_fp_loop ctx path chunks 1 0).2.2.1,
     (grep_match_output_fp_loop ctx path chunks 1 0).2.2.2)

/-- Embeds the scanning phase of `grep_main` (grep.c): input is scanned
only when the status is not already `GREP_EXIT_FAILURE`.  Files are given
as (path, chunks) pairs of successfully opened streams; the returned
`Nat` is the total number of chunks read. -/
def grep_main_scan (ctx : grep_ctx)
    (files : List (List Char × List (List Char))) :
    grep_ctx × List out_event × Nat :=
  if ctx.status_code = GREP_EXIT_FAILURE then (ctx, [], 0)
  else
    files.foldl
      (fun acc f =>
        let r := grep_match_output_fp acc.1 f.1 f.2
        (r.1, acc.2.1 ++ r.2.1, acc.2.2 + r.2.2))
      (ctx, [], 0)

/-- Embeds the preparation phase of `grep_main` (grep.c): select the
match function, then compile the pattern list only when not in
fixed-string mode. -/
def grep_main_prepare (ctx : grep_ctx) (rexec : List Char → List Char → Bool)
    (rc : List Char → Bool) : grep_ctx :=
  let ctx1 := grep_set_fn_match rexec ctx
  if ctx1.fixed_string then ctx1 else grep_compile_pattern_list ctx1 rc

/-- Star-free fragment of POSIX regular expressions sufficient for the
patterns this development reasons about: empty expression, literal
character, concatenation, group, and the BOL/EOL anchors. -/
inductive RE where
  | eps : RE
  | lit : Char → RE
  | cat : RE → RE → RE
  | grp : RE → RE
  | bol : RE
  | eol : RE
deriving DecidableEq, Repr

/-- Deterministic matcher for the star-free fragment at a fixed position:
`atBol` records whether the position is the beginning of the line; on
success returns the updated `atBol` and the rest of the line. -/
def re_match_from : RE → Bool → List Char → Option (Bool × List Char)
  | RE.eps, atBol, s => some (atBol, s)
  | RE.lit _, _, [] => none
  | RE.lit c, _, d :: r => if d == c then some (false, r) else none
  | RE.grp r, atBol, s => re_match_from r atBol s
  | RE.bol, atBol, s => if atBol then some (atBol, s) else none
  | RE.eol, atBol, s => if s.isEmpty then some (atBol, s) else none
  | RE.cat a b, atBol, s =>
      match re_match_from a atBol s with
      | none => none
      | some p => re_match_from b p.1 p.2

/-- Unanchored search: try to match at the current position, else advance
one character (no longer at BOL) — the `regexec` match-anywhere rule. -/
def re_search (r : RE) : Bool → List Char → Bool
  | atBol, [] => (re_match_from r atBol []).isSome
  | atBol, c :: rest =>
      if (re_match_from r atBol (c :: rest)).isSome then true
      else re_search r false rest

/-- Models `regexec` (POSIX) for the star-free fragment: the compiled
expression matches somewhere in the line. -/
def regexec_model (r : RE) (line : List Char) : Bool :=
  re_search r true line

/-- Models POSIX `regcomp` of the empty pattern text `""` (both BRE and
ERE): the empty expression.  The repository's own test suite states
"NULL BRE shall match every line". -/
def re_of_empty : RE := RE.eps

/-- Models POSIX ERE `regcomp` of the rewritten text `"^()$"` (flag
`REG_EXTENDED`): anchors around an empty group. -/
def re_ere_anch_empty : RE := RE.cat RE.bol (RE.cat (RE.grp RE.eps) RE.eol)

/-- Models POSIX BRE `regcomp` of the rewritten text `"^()$"` (the
default, no `REG_EXTENDED`): in a BRE a plain parenthesis is an ordinary
character, so the expression is the anchored two-character literal
`()`. -/
def re_bre_anch_empty : RE :=
  RE.cat RE.bol (RE.cat (RE.lit '(') (RE.cat (RE.lit ')') RE.eol))

/-- Concrete context with all option flags clear and no patterns, as
`grep_main` builds it right after `memset` and setting the initial
status; used to instantiate the general theorems. -/
def ctx0 : grep_ctx :=
  { status_code := GREP_EXIT_NOMATCH
    num_files := 1
    line_count := false
    extended_reg_expr := false
    fixed_string := false
    case_insensitive := false
    write_file_names := false
    line_number := false
    quiet := false
    ignore_file_error := false
    invert_match := false
    full_string_match := false
    pattern_list := []
    fn_match := grep_match_fixed_strstr }

theorem match_fold_or (f : grep_pattern → List Char → Bool) (line : List Char) :
    ∀ (ps : List grep_pattern) (b : Bool),
      ps.foldl (fun m p => if f p line then true else m) b
        = (b || ps.any (fun p => f p line)) := by
  intro ps
  induction ps with
  | nil => intro b; simp
  | cons p ps ih =>
      intro b
      rw [List.foldl_cons, ih, List.any_cons]
      by_cases h : f p line
      · simp [h]
      · simp only [Bool.not_eq_true] at h
        simp [h]

/-- The `grep_pattern_append` body, reorganized around the combined wrap
condition. -/
theorem grep_pattern_append_eq (ctx : grep_ctx) (p : List Char) (allocOk : Bool) :
    grep_pattern_append ctx p allocOk =
      if append_size_wrap ctx.pattern_list.length then grep_warn ctx
      else if allocOk then
        { ctx with pattern_list :=
            ctx.pattern_list ++ [{ pattern := p, compiled := false }] }
      else grep_warn ctx := rfl

/-- Neither `si_*` check wraps while the pattern count stays below
`2 ^ 57` (so that `(count + 1) * 80` fits in 64 bits). -/
theorem append_size_wrap_small (n : Nat) (h : n < 2 ^ 57) :
    append_size_wrap n = false := by
  have h1 : (n + 1) % SIZE_BOUND = n + 1 := by
    apply Nat.mod_eq_of_lt
    show n + 1 < 2 ^ 64
    omega
  have h2 : (2 : Nat) ^ 57 ≤ SIZE_MAX / sizeof_grep_pattern := by decide
  show (decide ((n + 1) % SIZE_BOUND < n) ||
      (decide (sizeof_grep_pattern ≠ 0) &&
        decide (SIZE_MAX / sizeof_grep_pattern < (n + 1) % SIZE_BOUND))) = false
  rw [h1]
  rw [show decide (n + 1 < n) = false by simp]
  rw [show decide (SIZE_MAX / sizeof_grep_pattern < n + 1) = false by
        simp only [decide_eq_false_iff_not, not_lt]; omega]
  simp

/-- Folding `grep_pattern_append` over a token list appends exactly those
tokens (uncompiled, in order) and leaves the status alone, as long as the
total count stays small enough for the size arithmetic. -/
theorem foldl_append_patterns :
    ∀ (ts : List (List Char)) (ctx : grep_ctx),
      ctx.pattern_list.length + ts.length < 2 ^ 57 →
      ((ts.foldl (fun c t => grep_pattern_append c t true) ctx).pattern_list =
          ctx.pattern_list ++
            ts.map (fun t => ({ pattern := t, compiled := false } : grep_pattern))) ∧
        (ts.foldl (fun c t => grep_pattern_append c t true) ctx).status_code =
          ctx.status_code := by
  intro ts
  induction ts with
  | nil => intro ctx _; simp
  | cons t ts ih =>
      intro ctx h
      have h' : ctx.pattern_list.length + (ts.length + 1) < 2 ^ 57 := by
        simpa using h
      have hw : append_size_wrap ctx.pattern_list.length = false :=
        append_size_wrap_small _ (by omega)
      have hstep : grep_pattern_append ctx t true =
          { ctx with pattern_list :=
              ctx.pattern_list ++ [{ pattern := t, compiled := false }] } := by
        rw [grep_pattern_append_eq, hw]
        simp
      have hlen : ({ ctx with pattern_list :=
          ctx.pattern_list ++ [{ pattern := t, compiled := false }] } :
            grep_ctx).pattern_list.length + ts.length < 2 ^ 57 := by
        simp
        omega
      have := ih ({ ctx with pattern_list :=
          ctx.pattern_list ++ [{ pattern := t, compiled := false }] }) hlen
      simp only [List.foldl_cons, hstep]
      refine ⟨?_, ?_⟩
      · rw [this.1]
        simp
      · rw [this.2]

/-- C1: the case-insensitive fixed-string strategy is documented (and
specified) as substring search, but `grep_strcasestr` never resets its
needle pointer after a mismatch: on haystack `axb` and needle `ab` it
reports a match although `ab` does not occur as a substring of `axb`
under ASCII case folding.  The claim's two concrete examples do hold. -/
theorem C1_strcasestr_divergence :
    grep_match_fixed_strcasestr { pattern := ['a', 'b'], compiled := false }
        ['a', 'x', 'b'] = true ∧
      casefold_occurs ['a', 'x', 'b'] ['a', 'b'] = false ∧
      grep_strcasestr ['a', 'B', 'c'] ['b'] = some ['B', 'c'] ∧
      grep_strcasestr ['a', 'b', 'c'] ['d'] = none := by
  refine ⟨rfl, ?_, rfl, rfl⟩
  decide

/-- C2: `grep_match_output_line` OR-combines the selected match function
over the whole (non-empty) pattern list and then applies
`invert_match`. -/
theorem C2_evaluate_or_invert (ctx : grep_ctx) (line : List Char)
    (_h : ctx.pattern_list ≠ []) :
    grep_match_output_line ctx line =
      if ctx.invert_match then !(ctx.pattern_list.any fun p => ctx.fn_match p line)
      else ctx.pattern_list.any fun p => ctx.fn_match p line := by
  unfold grep_match_output_line
  rw [match_fold_or]
  simp

/-- C2 at a concrete input: two patterns, strategy `strstr`, the second
pattern matches, no inversion. -/
theorem C2_evaluate_or_invert_witness :
    ({ ctx0 with pattern_list :=
        [{ pattern := ['z'], compiled := false },
         { pattern := ['b'], compiled := false }] } : grep_ctx).pattern_list ≠ [] ∧
      grep_match_output_line
        { ctx0 with pattern_list :=
            [{ pattern := ['z'], compiled := false },
             { pattern := ['b'], compiled := false }] } ['a', 'b'] =
        if ({ ctx0 with pattern_list :=
            [{ pattern := ['z'], compiled := false },
             { pattern := ['b'], compiled := false }] } : grep_ctx).invert_match
        then !(({ ctx0 with pattern_list :=
            [{ pattern := ['z'], compiled := false },
             { pattern := ['b'], compiled := false }] } : grep_ctx).pattern_list.any
              fun p => grep_match_fixed_strstr p ['a', 'b'])
        else ({ ctx0 with pattern_list :=
            [{ pattern := ['z'], compiled := false },
             { pattern := ['b'], compiled := false }] } : grep_ctx).pattern_list.any
              fun p => grep_match_fixed_strstr p ['a', 'b'] :=
  ⟨by decide, C2_evaluate_or_invert _ ['a', 'b'] (by decide)⟩

/-- C7: `grep_pattern_append` either stores the new pattern uncompiled at
the end (count up by one, status untouched), or — on size-arithmetic wrap
or allocation failure — leaves the stored patterns and count unchanged
and escalates the status to the fatal failure code. -/
theorem C7_append_contract (ctx : grep_ctx) (p : List Char) (allocOk : Bool) :
    ((grep_pattern_append ctx p allocOk).pattern_list =
        ctx.pattern_list ++ [{ pattern := p, compiled := false }] ∧
      (grep_pattern_append ctx p allocOk).pattern_list.length =
        ctx.pattern_list.length + 1 ∧
      (grep_pattern_append ctx p allocOk).status_code = ctx.status_code ∧
      append_size_wrap ctx.pattern_list.length = false ∧ allocOk = true) ∨
    ((grep_pattern_append ctx p allocOk).pattern_list = ctx.pattern_list ∧
      (grep_pattern_append ctx p allocOk).status_code = GREP_EXIT_FAILURE ∧
      (append_size_wrap ctx.pattern_list.length = true ∨ allocOk = false)) := by
  rw [grep_pattern_append_eq]
  by_cases hw : append_size_wrap ctx.pattern_list.length
  · right
    simp [hw, grep_warn]
  · cases allocOk with
    | true =>
        left
        simp [hw]
    | false =>
        right
        simp [hw, grep_warn]

/-- Pattern text handed to `regcomp`: rewritten by
`grep_pattern_add_bol_eol` exactly when `full_string_match` is set. -/
def compiled_text (full : Bool) (q : List Char) : List Char :=
  if full then bol_eol_text q else q

/-- The `len + 5` check of `grep_pattern_add_bol_eol` does not wrap for
any representable pattern length. -/
theorem bol_eol_no_wrap (q : List Char) (h : q.length + 5 < SIZE_BOUND) :
    (si_add_size_t q.length 5).2 = false := by
  show decide ((q.length + 5) % SIZE_BOUND < q.length) = false
  rw [Nat.mod_eq_of_lt h]
  simp

/-- Successful full-line rewrite: status untouched, text anchored. -/
theorem add_bol_eol_ok (status : Nat) (p : grep_pattern)
    (h : p.pattern.length + 5 < SIZE_BOUND) :
    grep_pattern_add_bol_eol status p =
      (status, { p with pattern := bol_eol_text p.pattern }) := by
  unfold grep_pattern_add_bol_eol
  rw [bol_eol_no_wrap _ h]
  simp

/-- One compile-loop iteration, characterized. -/
theorem compile_step_spec (full : Bool) (rc : List Char → Bool) (status : Nat)
    (p : grep_pattern) (h : p.pattern.length + 5 < SIZE_BOUND) :
    grep_compile_step full rc status p =
      (if rc (compiled_text full p.pattern) then status else GREP_EXIT_FAILURE,
       { pattern := compiled_text full p.pattern,
         compiled := if rc (compiled_text full p.pattern) then true
                     else p.compiled }) := by
  cases full with
  | false =>
      by_cases hrc : rc p.pattern
      · simp [grep_compile_step, compiled_text, hrc]
      · simp only [Bool.not_eq_true] at hrc
        simp [grep_compile_step, compiled_text, hrc]
  | true =>
      by_cases hrc : rc (bol_eol_text p.pattern)
      · simp [grep_compile_step, compiled_text, add_bol_eol_ok status p h, hrc]
      · simp only [Bool.not_eq_true] at hrc
        simp [grep_compile_step, compiled_text, add_bol_eol_ok status p h, hrc]

/-- Full characterization of the compile loop (under representable
pattern lengths): every pattern is rewritten (when requested) and
attempted; the status survives exactly when all of them compile. -/
theorem compile_loop_spec (full : Bool) (rc : List Char → Bool) :
    ∀ (ps : List grep_pattern) (status : Nat),
      (∀ p ∈ ps, p.pattern.length + 5 < SIZE_BOUND) →
      grep_compile_loop full rc status ps =
        (if ps.all (fun p => rc (compiled_text full p.pattern)) then status
         else GREP_EXIT_FAILURE,
         ps.map (fun p =>
           { pattern := compiled_text full p.pattern,
             compiled := if rc (compiled_text full p.pattern) then true
                         else p.compiled })) := by
  intro ps
  induction ps with
  | nil => intro status _; simp [grep_compile_loop]
  | cons p ps ih =>
      intro status hs
      have hp : p.pattern.length + 5 < SIZE_BOUND := hs p (by simp)
      have hps : ∀ q ∈ ps, q.pattern.length + 5 < SIZE_BOUND := fun q hq =>
        hs q (by simp [hq])
      rw [grep_compile_loop, compile_step_spec full rc status p hp]
      by_cases hrc : rc (compiled_text full p.pattern)
      · simp only [hrc, if_true]
        rw [ih status hps]
        simp [hrc]
      · simp only [Bool.not_eq_true] at hrc
        simp only [hrc, Bool.false_eq_true, if_false]
        rw [ih GREP_EXIT_FAILURE hps]
        simp [hrc]

/-- `grep_set_fn_match` changes only the selected match function. -/
theorem set_fn_match_fields (rexec : List Char → List Char → Bool)
    (ctx : grep_ctx) :
    (grep_set_fn_match rexec ctx).pattern_list = ctx.pattern_list ∧
      (grep_set_fn_match rexec ctx).fixed_string = ctx.fixed_string ∧
      (grep_set_fn_match rexec ctx).full_string_match = ctx.full_string_match ∧
      (grep_set_fn_match rexec ctx).status_code = ctx.status_code := by
  unfold grep_set_fn_match
  split_ifs <;> exact ⟨rfl, rfl, rfl, rfl⟩

/-- C6: a `regcomp` failure escalates the status to the fatal code, yet
every pattern in the list is still attempted (each ends up with its
rewritten text and its own compile result), and the scanning phase of
`grep_main` then reads no input at all. -/
theorem C6_compile_failure_no_scan (ctx : grep_ctx) (rc : List Char → Bool)
    (files : List (List Char × List (List Char)))
    (hsmall : ∀ p ∈ ctx.pattern_list, p.pattern.length + 5 < SIZE_BOUND)
    (hfail : ∃ p ∈ ctx.pattern_list,
        rc (compiled_text ctx.full_string_match p.pattern) = false) :
    (grep_compile_pattern_list ctx rc).status_code = GREP_EXIT_FAILURE ∧
      (grep_compile_pattern_list ctx rc).pattern_list =
        ctx.pattern_list.map (fun p =>
          { pattern := compiled_text ctx.full_string_match p.pattern,
            compiled := if rc (compiled_text ctx.full_string_match p.pattern)
                        then true else p.compiled }) ∧
      grep_main_scan (grep_compile_pattern_list ctx rc) files =
        (grep_compile_pattern_list ctx rc, [], 0) := by
  have hall : ctx.pattern_list.all
      (fun p => rc (compiled_text ctx.full_string_match p.pattern)) = false := by
    obtain ⟨p, hpmem, hf⟩ := hfail
    rw [List.all_eq_false]
    exact ⟨p, hpmem, by simp [hf]⟩
  have hcl := compile_loop_spec ctx.full_string_match rc ctx.pattern_list
    ctx.status_code hsmall
  have hst : (grep_compile_pattern_list ctx rc).status_code =
      GREP_EXIT_FAILURE := by
    show (grep_compile_loop ctx.full_string_match rc ctx.status_code
      ctx.pattern_list).1 = GREP_EXIT_FAILURE
    rw [hcl, hall]
    simp
  have hpl : (grep_compile_pattern_list ctx rc).pattern_list =
      ctx.pattern_list.map (fun p =>
        { pattern := compiled_text ctx.full_string_match p.pattern,
          compiled := if rc (compiled_text ctx.full_string_match p.pattern)
                      then true else p.compiled }) := by
    show (grep_compile_loop ctx.full_string_match rc ctx.status_code
      ctx.pattern_list).2 = _
    rw [hcl]
  exact ⟨hst, hpl, by simp [grep_main_scan, hst]⟩

/-- C6 at a concrete input: patterns `a` and `[`, a compile oracle that
rejects any text containing `[` (an unterminated bracket expression),
and one pending input file that is then never read. -/
theorem C6_compile_failure_no_scan_witness :
    (grep_compile_pattern_list
        { ctx0 with pattern_list :=
            [{ pattern := ['a'], compiled := false },
             { pattern := ['['], compiled := false }] }
        (fun t => !(t.contains '['))).status_code = GREP_EXIT_FAILURE ∧
      grep_main_scan
        (grep_compile_pattern_list
          { ctx0 with pattern_list :=
              [{ pattern := ['a'], compiled := false },
               { pattern := ['['], compiled := false }] }
          (fun t => !(t.contains '[')))
        [(['f'], [['x', '\n']])] =
        (grep_compile_pattern_list
          { ctx0 with pattern_list :=
              [{ pattern := ['a'], compiled := false },
               { pattern := ['['], compiled := false }] }
          (fun t => !(t.contains '[')), [], 0) := by
  have h := C6_compile_failure_no_scan
    { ctx0 with pattern_list :=
        [{ pattern := ['a'], compiled := false },
         { pattern := ['['], compiled := false }] }
    (fun t => !(t.contains '['))
    [(['f'], [['x', '\n']])]
    (by decide)
    (by decide)
  exact ⟨h.1, h.2.2⟩

/-- C5: with `full_string_match` set, on the regex path every pattern is
rewritten to `"^(" + original + ")$"` before compilation, under the
overflow-checked `len + 5` size computation; on the fixed-string path no
rewrite happens and the full-line strategies are plain (exact or
case-folded) string equality. -/
theorem C5_anchor_rewrite_regex_only (ctx : grep_ctx)
    (rexec : List Char → List Char → Bool) (rc : List Char → Bool)
    (hfull : ctx.full_string_match = true)
    (hsmall : ∀ p ∈ ctx.pattern_list, p.pattern.length + 5 < SIZE_BOUND) :
    (ctx.fixed_string = false →
        (grep_main_prepare ctx rexec rc).pattern_list =
          ctx.pattern_list.map (fun p =>
            { pattern := bol_eol_text p.pattern,
              compiled := if rc (bol_eol_text p.pattern) then true
                          else p.compiled })) ∧
      (∀ (st : Nat) (p : grep_pattern),
          (si_add_size_t p.pattern.length 5).2 = true →
          grep_pattern_add_bol_eol st p = (GREP_EXIT_FAILURE, p)) ∧
      (∀ (st : Nat) (p : grep_pattern),
          (si_add_size_t p.pattern.length 5).2 = false →
          grep_pattern_add_bol_eol st p =
            (st, { p with pattern := bol_eol_text p.pattern })) ∧
      (ctx.fixed_string = true →
          (grep_main_prepare ctx rexec rc).pattern_list = ctx.pattern_list ∧
            (grep_main_prepare ctx rexec rc).fn_match =
              (if ctx.case_insensitive then grep_match_fixed_strcasecmp
               else grep_match_fixed_strcmp) ∧
            (∀ (p : grep_pattern) (line : List Char),
                grep_match_fixed_strcmp p line = decide (line = p.pattern)) ∧
            (∀ (p : grep_pattern) (line : List Char),
                grep_match_fixed_strcasecmp p line =
                  decide (line.map tolower = p.pattern.map tolower))) := by
  obtain ⟨hpl, hfs, hfsm, hsc⟩ := set_fn_match_fields rexec ctx
  refine ⟨?_, ?_, ?_, ?_⟩
  · intro hfix
    have hnotfix : (grep_set_fn_match rexec ctx).fixed_string = false := by
      rw [hfs, hfix]
    show (if (grep_set_fn_match rexec ctx).fixed_string then
        grep_set_fn_match rexec ctx
      else grep_compile_pattern_list (grep_set_fn_match rexec ctx) rc).pattern_list = _
    rw [hnotfix]
    simp only [Bool.false_eq_true, if_false]
    show (grep_compile_loop (grep_set_fn_match rexec ctx).full_string_match rc
      (grep_set_fn_match rexec ctx).status_code
      (grep_set_fn_match rexec ctx).pattern_list).2 = _
    rw [compile_loop_spec _ _ _ _ (by rw [hpl]; exact hsmall), hpl, hfsm, hfull]
    simp [compiled_text]
  · intro st p hwrap
    unfold grep_pattern_add_bol_eol
    rw [hwrap]
    simp
  · intro st p hok
    unfold grep_pattern_add_bol_eol
    rw [hok]
    simp
  · intro hfix
    have hisfix : (grep_set_fn_match rexec ctx).fixed_string = true := by
      rw [hfs, hfix]
    have hpre : grep_main_prepare ctx rexec rc = grep_set_fn_match rexec ctx := by
      show (if (grep_set_fn_match rexec ctx).fixed_string then
          grep_set_fn_match rexec ctx
        else grep_compile_pattern_list (grep_set_fn_match rexec ctx) rc) = _
      rw [hisfix]
      simp
    refine ⟨by rw [hpre, hpl], ?_, ?_, ?_⟩
    · rw [hpre]
      by_cases hci : ctx.case_insensitive
      · simp [grep_set_fn_match, hfix, hci, hfull]
      · simp only [Bool.not_eq_true] at hci
        simp [grep_set_fn_match, hfix, hci, hfull]
    · intro p line
      by_cases h : line = p.pattern
      · simp [grep_match_fixed_strcmp, h]
      · simp [grep_match_fixed_strcmp, h]
    · intro p line
      by_cases h : line.map tolower = p.pattern.map tolower
      · simp [grep_match_fixed_strcasecmp, h]
      · simp [grep_match_fixed_strcasecmp, h]

/-- Concrete `-x` context with the single pattern `a`, regex mode. -/
def ctx_x_a : grep_ctx :=
  { ctx0 with
    full_string_match := true
    pattern_list := [{ pattern := ['a'], compiled := false }] }

/-- C5 at concrete inputs: one pattern `a` with `-x`; on the regex path
it is compiled as `^(a)$`. -/
theorem C5_anchor_rewrite_regex_only_witness :
    (ctx_x_a.fixed_string = false →
        (grep_main_prepare ctx_x_a
          (fun _ _ => false) (fun _ => true)).pattern_list =
          [{ pattern := bol_eol_text ['a'], compiled := true }]) ∧
      bol_eol_text ['a'] = ['^', '(', 'a', ')', '$'] := by
  have h := C5_anchor_rewrite_regex_only ctx_x_a
    (fun _ _ => false) (fun _ => true) (by decide) (by decide)
  refine ⟨fun hfix => ?_, by decide⟩
  rw [h.1 hfix]
  decide

/-- Line evaluation ignores the status field. -/
theorem match_line_status (ctx : grep_ctx) (s : Nat) (line : List Char) :
    grep_match_output_line { ctx with status_code := s } line =
      grep_match_output_line ctx line := rfl

/-- Line evaluation is unchanged by the matched-line status update. -/
theorem match_line_fp_update (ctx : grep_ctx) (line : List Char) :
    grep_match_output_line (fp_match_update ctx) line =
      grep_match_output_line ctx line := by
  unfold fp_match_update
  split_ifs <;> rfl

/-- The status update composes with later status overwrites. -/
theorem fp_update_collapse (ctx : grep_ctx) (s : Nat) :
    ({ fp_match_update ctx with status_code := s } : grep_ctx) =
      { ctx with status_code := s } := by
  unfold fp_match_update
  split_ifs <;> rfl

/-- The scanning loop changes nothing in the context but the status. -/
theorem fp_loop_ctx_shape (path : List Char) :
    ∀ (chunks : List (List Char)) (ctx : grep_ctx) (li mi : Nat),
      (grep_match_output_fp_loop ctx path chunks li mi).1 =
        { ctx with status_code :=
            (grep_match_output_fp_loop ctx path chunks li mi).1.status_code } := by
  intro chunks
  induction chunks with
  | nil => intro ctx li mi; rfl
  | cons raw rest ih =>
      intro ctx li mi
      by_cases hm : grep_match_output_line ctx raw.dropLast
      · by_cases hw : ctx.write_file_names
        · show (grep_match_output_fp_loop ctx path (raw :: rest) li mi).1 = _
          rw [grep_match_output_fp_loop]
          rw [if_pos hm, if_pos hw]
          show fp_match_update ctx = _
          unfold fp_match_update
          split_ifs <;> rfl
        · rw [grep_match_output_fp_loop, if_pos hm, if_neg hw]
          rcases hr : grep_match_output_fp_loop (fp_match_update ctx) path rest
            (li + 1) (mi + 1) with ⟨c, m, outs, k⟩
          have h1 := ih (fp_match_update ctx) (li + 1) (mi + 1)
          rw [hr] at h1
          have h2 : c = { fp_match_update ctx with status_code := c.status_code } := h1
          simp only [hr]
          show c = _
          exact h2.trans (fp_update_collapse ctx _)
      · rw [grep_match_output_fp_loop, if_neg hm]
        rcases hr : grep_match_output_fp_loop ctx path rest (li + 1) mi
          with ⟨c, m, outs, k⟩
        have h1 := ih ctx (li + 1) mi
        rw [hr] at h1
        have h2 : c = { ctx with status_code := c.status_code } := h1
        simp only [hr]
        exact h2

/-- Resulting status of the scanning loop: untouched when already at the
failure code or when no line matches, `GREP_EXIT_MATCH` otherwise. -/
theorem fp_loop_status (path : List Char) :
    ∀ (chunks : List (List Char)) (ctx : grep_ctx) (li mi : Nat),
      (grep_match_output_fp_loop ctx path chunks li mi).1.status_code =
        if ctx.status_code = GREP_EXIT_FAILURE then ctx.status_code
        else if chunks.any (fun raw => grep_match_output_line ctx raw.dropLast)
        then GREP_EXIT_MATCH
        else ctx.status_code := by
  intro chunks
  induction chunks with
  | nil =>
      intro ctx li mi
      show ctx.status_code = _
      simp
  | cons raw rest ih =>
      intro ctx li mi
      by_cases hm : grep_match_output_line ctx raw.dropLast
      · by_cases hw : ctx.write_file_names
        · rw [grep_match_output_fp_loop, if_pos hm, if_pos hw]
          show (fp_match_update ctx).status_code = _
          unfold fp_match_update
          by_cases hf : ctx.status_code = GREP_EXIT_FAILURE
          · simp [hf]
          · simp [hf, List.any_cons, hm]
        · rw [grep_match_output_fp_loop, if_pos hm, if_neg hw]
          rcases hr : grep_match_output_fp_loop (fp_match_update ctx) path rest
            (li + 1) (mi + 1) with ⟨c, m, outs, k⟩
          have h1 := ih (fp_match_update ctx) (li + 1) (mi + 1)
          rw [hr] at h1
          have h2 : c.status_code =
              if (fp_match_update ctx).status_code = GREP_EXIT_FAILURE then
                (fp_match_update ctx).status_code
              else if rest.any (fun raw =>
                  grep_match_output_line (fp_match_update ctx) raw.dropLast) then
                GREP_EXIT_MATCH
              else (fp_match_update ctx).status_code := h1
          simp only [hr]
          show c.status_code = _
          by_cases hf : ctx.status_code = GREP_EXIT_FAILURE
          · have hfp : fp_match_update ctx = ctx := by
              unfold fp_match_update
              simp [hf]
            rw [hfp] at h2
            rw [h2]
            simp [hf]
          · have hfp : fp_match_update ctx =
                { ctx with status_code := GREP_EXIT_MATCH } := by
              unfold fp_match_update
              simp [hf]
            rw [hfp] at h2
            simp only [match_line_status] at h2
            have hMF : ¬ (GREP_EXIT_MATCH = GREP_EXIT_FAILURE) := by decide
            simp only [show ({ ctx with status_code := GREP_EXIT_MATCH } :
                grep_ctx).status_code = GREP_EXIT_MATCH from rfl, hMF,
              if_false, ite_self] at h2
            rw [h2]
            simp [hf, List.any_cons, hm]
      · rw [grep_match_output_fp_loop, if_neg hm]
        rcases hr : grep_match_output_fp_loop ctx path rest (li + 1) mi
          with ⟨c, m, outs, k⟩
        have h1 := ih ctx (li + 1) mi
        rw [hr] at h1
        simp only [hr]
        show c.status_code = _
        rw [h1]
        simp only [Bool.not_eq_true] at hm
        simp [List.any_cons, hm]

/-- In `-l` mode with a matching chunk, the loop emits the path exactly
once and stops after the first matching chunk. -/
theorem fp_loop_filenames (path : List Char) :
    ∀ (chunks : List (List Char)) (ctx : grep_ctx) (li mi : Nat),
      ctx.write_file_names = true →
      chunks.any (fun raw => grep_match_output_line ctx raw.dropLast) = true →
      (grep_match_output_fp_loop ctx path chunks li mi).2.2.1 =
          [out_event.path_name path] ∧
        (grep_match_output_fp_loop ctx path chunks li mi).2.2.2 =
          chunks.findIdx (fun raw => grep_match_output_line ctx raw.dropLast) + 1 ∧
        chunks.findIdx (fun raw => grep_match_output_line ctx raw.dropLast) <
          chunks.length := by
  intro chunks
  induction chunks with
  | nil => intro ctx li mi _ hm; simp at hm
  | cons raw rest ih =>
      intro ctx li mi hw hm
      by_cases hmatch : grep_match_output_line ctx raw.dropLast
      · rw [grep_match_output_fp_loop, if_pos hmatch, if_pos hw]
        refine ⟨rfl, ?_, ?_⟩
        · simp [List.findIdx_cons, hmatch]
        · simp [List.findIdx_cons, hmatch]
      · have hm' : rest.any (fun raw => grep_match_output_line ctx raw.dropLast)
            = true := by
          rw [List.any_cons] at hm
          simp only [Bool.not_eq_true] at hmatch
          simpa [hmatch] using hm
        obtain ⟨ho, hk, hlt⟩ := ih ctx (li + 1) mi hw hm'
        rw [grep_match_output_fp_loop, if_neg hmatch]
        rcases hr : grep_match_output_fp_loop ctx path rest (li + 1) mi
          with ⟨c, m, outs, k⟩
        rw [hr] at ho hk
        have ho' : outs = [out_event.path_name path] := ho
        have hk' : k = rest.findIdx
            (fun raw => grep_match_output_line ctx raw.dropLast) + 1 := hk
        simp only [hr]
        simp only [Bool.not_eq_true] at hmatch
        have hidx : (raw :: rest).findIdx
            (fun raw => grep_match_output_line ctx raw.dropLast) =
            rest.findIdx (fun raw => grep_match_output_line ctx raw.dropLast)
              + 1 := by
          simp [List.findIdx_cons, hmatch]
        refine ⟨ho', ?_, ?_⟩
        · show k + 1 = _
          rw [hk', hidx]
        · rw [hidx, List.length_cons]
          omega

/-- C4: with `write_file_names` (-l) and a stream containing a matching
line, `grep_match_output_fp` emits the file path exactly once, and reads
exactly up to the first matching chunk: later chunks are never read or
evaluated. -/
theorem C4_filenames_short_circuit (ctx : grep_ctx) (path : List Char)
    (chunks : List (List Char))
    (hl : ctx.write_file_names = true) (hc : ctx.line_count = false)
    (hm : chunks.any (fun raw => grep_match_output_line ctx raw.dropLast) = true) :
    (grep_match_output_fp ctx path chunks).2.1 = [out_event.path_name path] ∧
      (grep_match_output_fp ctx path chunks).2.2 =
        chunks.findIdx (fun raw => grep_match_output_line ctx raw.dropLast) + 1 ∧
      chunks.findIdx (fun raw => grep_match_output_line ctx raw.dropLast) <
        chunks.length := by
  obtain ⟨ho, hk, hlt⟩ := fp_loop_filenames path chunks ctx 1 0 hl hm
  have hshape := fp_loop_ctx_shape path chunks ctx 1 0
  have hlc : (grep_match_output_fp_loop ctx path chunks 1 0).1.line_count
      = false := by
    rw [hshape]
    exact hc
  unfold grep_match_output_fp
  rw [hlc]
  simp only [Bool.false_eq_true, if_false]
  exact ⟨ho, hk, hlt⟩

/-- C4 at a concrete input: `-l`, pattern `b` via `strstr`, three chunks
of which the second is the first match; exactly two chunks are read. -/
theorem C4_filenames_short_circuit_witness :
    (grep_match_output_fp
        { ctx0 with
          write_file_names := true
          pattern_list := [{ pattern := ['b'], compiled := false }] }
        ['f'] [['x', '\n'], ['a', 'b', '\n'], ['b', '\n']]).2.1 =
      [out_event.path_name ['f']] ∧
      (grep_match_output_fp
        { ctx0 with
          write_file_names := true
          pattern_list := [{ pattern := ['b'], compiled := false }] }
        ['f'] [['x', '\n'], ['a', 'b', '\n'], ['b', '\n']]).2.2 =
        ([['x', '\n'], ['a', 'b', '\n'], ['b', '\n']].findIdx
          (fun raw => grep_match_output_line
            { ctx0 with
              write_file_names := true
              pattern_list := [{ pattern := ['b'], compiled := false }] }
            raw.dropLast)) + 1 := by
  have h := C4_filenames_short_circuit
    { ctx0 with
      write_file_names := true
      pattern_list := [{ pattern := ['b'], compiled := false }] }
    ['f'] [['x', '\n'], ['a', 'b', '\n'], ['b', '\n']]
    (by decide) (by decide) (by decide)
  exact ⟨h.1, h.2.1⟩

/-- Severity never decreases across the scanning loop. -/
theorem fp_loop_sev_mono (ctx : grep_ctx) (path : List Char)
    (chunks : List (List Char)) (li mi : Nat) :
    status_sev ctx.status_code ≤
      status_sev (grep_match_output_fp_loop ctx path chunks li mi).1.status_code := by
  rw [fp_loop_status]
  by_cases hf : ctx.status_code = GREP_EXIT_FAILURE
  · simp [hf]
  · by_cases ha : chunks.any (fun raw => grep_match_output_line ctx raw.dropLast)
    · simp only [hf, if_false, ha, if_true]
      unfold status_sev
      split_ifs <;> omega
    · simp [hf, ha]

/-- C8: the process status only escalates.  `grep_warn` (every error
site) lands on the fatal code from any state; across the scanning loop
the severity NoMatchYet < Matched < Errored never decreases; once at the
fatal code the whole `grep_match_output_fp` pass (matching lines
included) leaves it there; and from the initial no-match status a
matching line yields exactly the match status. -/
theorem C8_status_escalation (ctx : grep_ctx) (path : List Char)
    (chunks : List (List Char)) (li mi : Nat) :
    ((grep_warn ctx).status_code = GREP_EXIT_FAILURE) ∧
      (status_sev ctx.status_code ≤
        status_sev (grep_match_output_fp_loop ctx path chunks li mi).1.status_code) ∧
      (ctx.status_code = GREP_EXIT_FAILURE →
        (grep_match_output_fp ctx path chunks).1.status_code =
          GREP_EXIT_FAILURE) ∧
      (ctx.status_code = GREP_EXIT_NOMATCH →
        chunks.any (fun raw => grep_match_output_line ctx raw.dropLast) = true →
        (grep_match_output_fp_loop ctx path chunks li mi).1.status_code =
          GREP_EXIT_MATCH) := by
  refine ⟨rfl, fp_loop_sev_mono ctx path chunks li mi, ?_, ?_⟩
  · intro hf
    have hst : (grep_match_output_fp_loop ctx path chunks 1 0).1.status_code =
        GREP_EXIT_FAILURE := by
      rw [fp_loop_status]
      simp [hf]
    unfold grep_match_output_fp
    split_ifs <;> simpa using hst
  · intro hn ha
    rw [fp_loop_status]
    rw [hn]
    simp [GREP_EXIT_NOMATCH, GREP_EXIT_FAILURE, ha]

/-- C8 at a concrete input: from the fatal status, a later matching line
leaves the status fatal; from the initial status it becomes the match
status. -/
theorem C8_status_escalation_witness :
    ((grep_warn { ctx0 with
        pattern_list := [{ pattern := ['b'], compiled := false }] }).status_code =
      GREP_EXIT_FAILURE) ∧
      (grep_match_output_fp
        { ctx0 with
          status_code := GREP_EXIT_FAILURE
          pattern_list := [{ pattern := ['b'], compiled := false }] }
        ['f'] [['b', '\n']]).1.status_code = GREP_EXIT_FAILURE ∧
      (grep_match_output_fp_loop
        { ctx0 with
          pattern_list := [{ pattern := ['b'], compiled := false }] }
        ['f'] [['b', '\n']] 1 0).1.status_code = GREP_EXIT_MATCH := by
  refine ⟨(C8_status_escalation
      { ctx0 with
        pattern_list := [{ pattern := ['b'], compiled := false }] }
      ['f'] [['b', '\n']] 1 0).1, ?_, ?_⟩
  · exact (C8_status_escalation
      { ctx0 with
        status_code := GREP_EXIT_FAILURE
        pattern_list := [{ pattern := ['b'], compiled := false }] }
      ['f'] [['b', '\n']] 1 0).2.2.1 rfl
  · exact (C8_status_escalation
      { ctx0 with
        pattern_list := [{ pattern := ['b'], compiled := false }] }
      ['f'] [['b', '\n']] 1 0).2.2.2 rfl (by decide)

/-- Every `getline` chunk is non-empty (the C loop only runs for
`read != -1`, and `getline` returns at least one character). -/
theorem getline_chunks_mem_ne_nil : ∀ (s raw : List Char),
    raw ∈ getline_chunks s → raw ≠ [] := by
  intro s
  induction s with
  | nil => intro raw h; simp [getline_chunks] at h
  | cons c r ih =>
      intro raw h
      by_cases hc : c == '\n'
      · rw [getline_chunks, if_pos hc] at h
        rcases List.mem_cons.mp h with h1 | h2
        · rw [h1]; simp
        · exact ih raw h2
      · rw [getline_chunks, if_neg hc] at h
        rcases hgc : getline_chunks r with _ | ⟨t, ts⟩
        · rw [hgc] at h
          simp at h
          rw [h]
          simp
        · rw [hgc] at h
          rcases List.mem_cons.mp h with h1 | h2
          · rw [h1]; simp
          · exact ih raw (by rw [hgc]; exact List.mem_cons_of_mem t h2)

/-- C3 counterexample: a pattern file whose single line `ab` has no
trailing newline still loses its last character — the loaded pattern is
`a`, not `ab`. -/
theorem C3_counterexample_no_final_newline :
    getline_chunks ['a', 'b'] = [['a', 'b']] ∧
      (grep_pattern_file ctx0 ['a', 'b']).pattern_list =
        [{ pattern := ['a'], compiled := false }] ∧
      (['a'] : List Char) ≠ ['a', 'b'] := by
  refine ⟨rfl, ?_, by decide⟩
  decide

/-- C3 (amended): `grep_pattern_file` appends one pattern per `getline`
chunk, equal to the chunk with its final character removed: for chunks
ending in a newline this strips exactly the terminator, while a final
chunk without a trailing newline also loses its last content
character. -/
theorem C3_pattern_file_strips_last (ctx : grep_ctx) (content : List Char)
    (hlen : ctx.pattern_list.length + (getline_chunks content).length < 2 ^ 57) :
    (grep_pattern_file ctx content).pattern_list =
        ctx.pattern_list ++
          (getline_chunks content).map
            (fun raw => { pattern := raw.dropLast, compiled := false }) ∧
      ∀ raw ∈ getline_chunks content,
        raw ≠ [] ∧ (raw.getLast? = some '\n' → raw.dropLast ++ ['\n'] = raw) := by
  constructor
  · have hfold : grep_pattern_file ctx content =
        ((getline_chunks content).map List.dropLast).foldl
          (fun c t => grep_pattern_append c t true) ctx := by
      unfold grep_pattern_file
      rw [List.foldl_map]
    rw [hfold]
    have h := (foldl_append_patterns ((getline_chunks content).map List.dropLast)
      ctx (by simpa using hlen)).1
    rw [h, List.map_map]
    rfl
  · intro raw hraw
    have hne := getline_chunks_mem_ne_nil content raw hraw
    refine ⟨hne, ?_⟩
    intro hlast
    have h1 : raw.getLast hne = '\n' := by
      rw [List.getLast?_eq_getLast raw hne] at hlast
      exact (Option.some.injEq _ _).mp hlast
    have h2 := List.dropLast_append_getLast hne
    rw [h1] at h2
    exact h2

/-- C3 (amended) at a concrete input: content `ab\ncd` yields patterns
`ab` (newline stripped) and `c` (last content character lost). -/
theorem C3_pattern_file_strips_last_witness :
    (grep_pattern_file ctx0 ['a', 'b', '\n', 'c', 'd']).pattern_list =
      [{ pattern := ['a', 'b'], compiled := false },
       { pattern := ['c'], compiled := false }] := by
  have h := (C3_pattern_file_strips_last ctx0 ['a', 'b', '\n', 'c', 'd']
    (by decide)).1
  rw [h]
  decide

/-- Relation between one `strtok` token extraction and the
newline-keeping split: with a newline present the split begins with the
token; without one the token is the whole rest. -/
theorem token_take_split : ∀ (r : List Char),
    ('\n' ∈ r → split_newline r =
        (token_take r).1 :: split_newline (token_take r).2) ∧
      ('\n' ∉ r → token_take r = (r, []) ∧ split_newline r = [r]) := by
  intro r
  induction r with
  | nil =>
      constructor
      · intro h; simp at h
      · intro _; exact ⟨rfl, rfl⟩
  | cons c r ih =>
      by_cases hc : c = '\n'
      · subst hc
        constructor
        · intro _
          rw [token_take]
          simp [split_newline]
        · intro h
          exact absurd (List.mem_cons_self _ _) h
      · have hcb : (c == '\n') = false := by simp [hc]
        constructor
        · intro hmem
          have hmem' : '\n' ∈ r := by
            rcases List.mem_cons.mp hmem with h1 | h2
            · exact absurd h1.symm hc
            · exact h2
          have h2 := ih.1 hmem'
          rw [token_take]
          simp only [hcb, Bool.false_eq_true, if_false]
          rw [split_newline]
          simp only [hcb, Bool.false_eq_true, if_false]
          rw [h2]
        · intro hmem
          have hmem' : '\n' ∉ r := fun h => hmem (List.mem_cons_of_mem c h)
          obtain ⟨h4, h5⟩ := ih.2 hmem'
          constructor
          · rw [token_take]
            simp only [hcb, Bool.false_eq_true, if_false]
            rw [h4]
          · rw [split_newline]
            simp only [hcb, Bool.false_eq_true, if_false]
            rw [h5]

/-- The `strtok` iteration produces exactly the non-empty segments of the
newline-keeping split (bounded-recursion form). -/
theorem strtok_filter_eq_aux : ∀ (n : Nat) (s : List Char), s.length ≤ n →
    strtok_all s = (split_newline s).filter (fun t => t ≠ []) := by
  intro n
  induction n with
  | zero =>
      intro s hs
      have h0 : s = [] := List.length_eq_zero.mp (Nat.le_zero.mp hs)
      subst h0
      simp [strtok_all, split_newline]
  | succ n ih =>
      intro s hs
      match s with
      | [] => simp [strtok_all, split_newline]
      | c :: r =>
          have hr : r.length ≤ n := by
            simp only [List.length_cons] at hs
            omega
          by_cases hc : c = '\n'
          · subst hc
            rw [strtok_all]
            simp only [beq_self_eq_true, if_true]
            rw [ih r hr, split_newline]
            simp
          · have hcb : (c == '\n') = false := by simp [hc]
            have hrest : (token_take r).2.length ≤ n :=
              le_trans (token_take_rest_le r) hr
            rw [strtok_all]
            simp only [hcb, Bool.false_eq_true, if_false]
            rw [ih (token_take r).2 hrest]
            by_cases hmem : '\n' ∈ r
            · have h2 := (token_take_split r).1 hmem
              rw [split_newline]
              simp only [hcb, Bool.false_eq_true, if_false]
              rw [h2]
              simp
            · obtain ⟨h4, h5⟩ := (token_take_split r).2 hmem
              rw [split_newline]
              simp only [hcb, Bool.false_eq_true, if_false]
              rw [h4, h5]
              simp [split_newline]

/-- The `strtok` iteration produces exactly the non-empty segments of the
newline-keeping split. -/
theorem strtok_filter_eq (s : List Char) :
    strtok_all s = (split_newline s).filter (fun t => t ≠ []) :=
  strtok_filter_eq_aux s.length s le_rfl

/-- No split segment contains a newline. -/
theorem split_newline_no_nl : ∀ (s t : List Char),
    t ∈ split_newline s → '\n' ∉ t := by
  intro s
  induction s with
  | nil =>
      intro t h
      simp [split_newline] at h
      rw [h]
      simp
  | cons c r ih =>
      intro t h
      by_cases hc : c = '\n'
      · subst hc
        rw [split_newline] at h
        simp only [beq_self_eq_true, if_true] at h
        rcases List.mem_cons.mp h with h1 | h2
        · rw [h1]; simp
        · exact ih t h2
      · have hcb : (c == '\n') = false := by simp [hc]
        rw [split_newline] at h
        simp only [hcb, Bool.false_eq_true, if_false] at h
        rcases hsp : split_newline r with _ | ⟨t0, ts⟩
        · rw [hsp] at h
          simp at h
          rw [h]
          intro hmem
          rcases List.mem_singleton.mp hmem with h1
          exact hc h1.symm
        · rw [hsp] at h
          rcases List.mem_cons.mp h with h1 | h2
          · rw [h1]
            intro hmem
            rcases List.mem_cons.mp hmem with h3 | h4
            · exact hc h3.symm
            · exact ih t0 (by rw [hsp]; exact List.mem_cons_self t0 ts) h4
          · exact ih t (by rw [hsp]; exact List.mem_cons_of_mem t0 h2)

/-- On a string made only of newlines every split segment is empty. -/
theorem split_newline_all_nl : ∀ (s : List Char), (∀ c ∈ s, c = '\n') →
    ∀ t ∈ split_newline s, t = [] := by
  intro s
  induction s with
  | nil =>
      intro _ t ht
      simpa [split_newline] using ht
  | cons c r ih =>
      intro hall t ht
      have hc : c = '\n' := hall c (List.mem_cons_self c r)
      subst hc
      rw [split_newline] at ht
      simp only [beq_self_eq_true, if_true] at ht
      rcases List.mem_cons.mp ht with h1 | h2
      · exact h1
      · exact ih (fun d hd => hall d (List.mem_cons_of_mem _ hd)) t h2

/-- C10: loading from a non-empty `-e` string appends exactly the maximal
non-empty newline-free segments, in order (so runs of newlines, also
leading and trailing ones, never yield an empty pattern, and an all
newline string yields none); only the exactly empty string appends the
single empty pattern. -/
theorem C10_pattern_string_tokens (ctx : grep_ctx) (s : List Char)
    (hlen : ctx.pattern_list.length + (strtok_all s).length + 1 < 2 ^ 57) :
    (s ≠ [] →
      (grep_pattern_string ctx s).pattern_list =
          ctx.pattern_list ++
            ((split_newline s).filter (fun t => t ≠ [])).map
              (fun t => { pattern := t, compiled := false }) ∧
        (∀ t ∈ (split_newline s).filter (fun t => t ≠ []), t ≠ [] ∧ '\n' ∉ t) ∧
        ((∀ c ∈ s, c = '\n') →
          (grep_pattern_string ctx s).pattern_list = ctx.pattern_list)) ∧
      (s = [] →
        (grep_pattern_string ctx s).pattern_list =
          ctx.pattern_list ++ [{ pattern := [], compiled := false }]) := by
  constructor
  · intro hne
    have hneb : (s == []) = false := by
      simp [hne]
    have hfold : grep_pattern_string ctx s =
        (strtok_all s).foldl (fun c t => grep_pattern_append c t true) ctx := by
      unfold grep_pattern_string
      rw [hneb]
      simp
    have hmain : (grep_pattern_string ctx s).pattern_list =
        ctx.pattern_list ++
          ((split_newline s).filter (fun t => t ≠ [])).map
            (fun t => { pattern := t, compiled := false }) := by
      rw [hfold,
        (foldl_append_patterns (strtok_all s) ctx (by omega)).1,
        strtok_filter_eq]
    refine ⟨hmain, ?_, ?_⟩
    · intro t ht
      exact ⟨by simpa using List.of_mem_filter ht,
        split_newline_no_nl s t (List.mem_of_mem_filter ht)⟩
    · intro hall
      have hfe : (split_newline s).filter (fun t => t ≠ []) = [] := by
        rw [List.filter_eq_nil_iff]
        intro t ht
        simp [split_newline_all_nl s hall t ht]
      rw [hmain, hfe]
      simp
  · intro he
    subst he
    have hw : append_size_wrap ctx.pattern_list.length = false :=
      append_size_wrap_small _ (by omega)
    have hps : grep_pattern_string ctx [] = grep_pattern_append ctx [] true := by
      unfold grep_pattern_string
      simp
    rw [hps, grep_pattern_append_eq, hw]
    simp

/-- C10 at a concrete input: `\na\n\nb\n` yields exactly the patterns
`a` and `b`; `\n\n` yields none; the empty string yields one empty
pattern. -/
theorem C10_pattern_string_tokens_witness :
    (grep_pattern_string ctx0 ['\n', 'a', '\n', '\n', 'b', '\n']).pattern_list =
        [{ pattern := ['a'], compiled := false },
         { pattern := ['b'], compiled := false }] ∧
      (grep_pattern_string ctx0 ['\n', '\n']).pattern_list = [] ∧
      (grep_pattern_string ctx0 []).pattern_list =
        [{ pattern := [], compiled := false }] := by
  refine ⟨?_, ?_, ?_⟩
  · have hs : strtok_all ['\n', 'a', '\n', '\n', 'b', '\n'] = [['a'], ['b']] := by
      simp [strtok_all, token_take]
    have h := ((C10_pattern_string_tokens ctx0 ['\n', 'a', '\n', '\n', 'b', '\n']
      (by rw [hs]; norm_num [ctx0])).1 (by decide)).1
    rw [h]
    decide
  · have hs : strtok_all ['\n', '\n'] = [] := by
      simp [strtok_all]
    have h := ((C10_pattern_string_tokens ctx0 ['\n', '\n']
      (by rw [hs]; norm_num [ctx0])).1 (by decide)).2.2 (by decide)
    rw [h]
    exact rfl
  · have hs : strtok_all ([] : List Char) = [] := by
      simp [strtok_all]
    exact (C10_pattern_string_tokens ctx0 []
      (by rw [hs]; norm_num [ctx0])).2 rfl

/-- A BOL-anchored expression can never match once the search has left
the beginning of the line. -/
theorem re_search_bol_false (r : RE) : ∀ (s : List Char),
    re_search (RE.cat RE.bol r) false s = false := by
  intro s
  induction s with
  | nil => rfl
  | cons c rest ih =>
      rw [re_search]
      have h : (re_match_from (RE.cat RE.bol r) false (c :: rest)).isSome
          = false := by
        simp [re_match_from]
      rw [h]
      simp [ih]

/-- At the beginning of the line, the ERE compilation of `"^()$"` matches
exactly the empty rest. -/
theorem re_ere_anch_from (s : List Char) :
    (re_match_from re_ere_anch_empty true s).isSome = decide (s = []) := by
  cases s with
  | nil => rfl
  | cons c rest => simp [re_ere_anch_empty, re_match_from]

/-- At the beginning of the line, the BRE compilation of `"^()$"` matches
exactly the rest `()`. -/
theorem re_bre_anch_from (s : List Char) :
    (re_match_from re_bre_anch_empty true s).isSome = decide (s = ['(', ')']) := by
  match s with
  | [] => rfl
  | [c1] =>
      by_cases h1 : c1 = '('
      · simp [re_bre_anch_empty, re_match_from, h1]
      · simp [re_bre_anch_empty, re_match_from, h1]
  | c1 :: c2 :: t =>
      by_cases h1 : c1 = '('
      · by_cases h2 : c2 = ')'
        · subst h1
          subst h2
          cases t with
          | nil => rfl
          | cons d tl => simp [re_bre_anch_empty, re_match_from]
        · simp [re_bre_anch_empty, re_match_from, h1, h2]
      · simp [re_bre_anch_empty, re_match_from, h1]

/-- `regexec` on the ERE `"^()$"`: matches exactly the empty line. -/
theorem regexec_ere_anch (line : List Char) :
    regexec_model re_ere_anch_empty line = decide (line = []) := by
  cases line with
  | nil => rfl
  | cons c rest =>
      show re_search re_ere_anch_empty true (c :: rest) = _
      rw [re_search, re_ere_anch_from]
      simp only [decide_eq_true_eq]
      rw [if_neg (by simp)]
      rw [show re_search re_ere_anch_empty false rest =
          re_search (RE.cat RE.bol (RE.cat (RE.grp RE.eps) RE.eol)) false rest
          from rfl]
      rw [re_search_bol_false]
      simp

/-- `regexec` on the BRE `"^()$"`: matches exactly the line `()`. -/
theorem regexec_bre_anch (line : List Char) :
    regexec_model re_bre_anch_empty line = decide (line = ['(', ')']) := by
  cases line with
  | nil => rfl
  | cons c rest =>
      show re_search re_bre_anch_empty true (c :: rest) = _
      rw [re_search, re_bre_anch_from]
      by_cases h : (c :: rest : List Char) = ['(', ')']
      · rw [h]
        simp
      · rw [if_neg (by simp [h])]
        rw [show re_search re_bre_anch_empty false rest =
            re_search (RE.cat RE.bol
              (RE.cat (RE.lit '(') (RE.cat (RE.lit ')') RE.eol))) false rest
            from rfl]
        rw [re_search_bol_false]
        simp [h]

/-- C9: the empty pattern matches every line under both fixed-string
substring strategies and under the default (unanchored) regex; with
`full_string_match`, fixed-string equality and the ERE rewrite `"^()$"`
match only the empty line, while the default-BRE rewrite `"^()$"` treats
the parentheses as ordinary characters and matches exactly the line
`()`. -/
theorem C9_empty_pattern (line : List Char) :
    grep_match_fixed_strstr { pattern := [], compiled := false } line = true ∧
      grep_match_fixed_strcasestr { pattern := [], compiled := false } line
        = true ∧
      regexec_model re_of_empty line = true ∧
      grep_match_fixed_strcmp { pattern := [], compiled := false } line =
        decide (line = []) ∧
      grep_match_fixed_strcasecmp { pattern := [], compiled := false } line =
        decide (line = []) ∧
      regexec_model re_ere_anch_empty line = decide (line = []) ∧
      regexec_model re_bre_anch_empty line = decide (line = ['(', ')']) := by
  refine ⟨?_, ?_, ?_, ?_, ?_, regexec_ere_anch line, regexec_bre_anch line⟩
  · cases line with
    | nil => rfl
    | cons c rest => simp [grep_match_fixed_strstr, strstr, begins_with]
  · rfl
  · cases line with
    | nil => rfl
    | cons c rest => simp [regexec_model, re_search, re_match_from, re_of_empty]
  · by_cases h : line = ([] : List Char)
    · simp [grep_match_fixed_strcmp, h]
    · simp [grep_match_fixed_strcmp, h]
  · by_cases h : line = ([] : List Char)
    · simp [grep_match_fixed_strcasecmp, h]
    · simp [grep_match_fixed_strcasecmp, List.map_eq_nil_iff, h]

/-- C9 counterexample: in the default basic-regex mode the rewritten
`"^()$"` matches the non-empty line `()` and does not match the empty
line, so an empty `-x` pattern does not match only empty lines there. -/
theorem C9_counterexample_bre_parens :
    regexec_model re_bre_anch_empty ['(', ')'] = true ∧
      (['(', ')'] : List Char) ≠ [] ∧
      regexec_model re_bre_anch_empty [] = false := by
  decide

end Grep
